import Mathlib

/-!
# Verification of the rust-zip archive build & restore pipeline

Shallow embedding of the repository's core functions. File names are
modelled as `List Char`; file contents as `List Nat` (bytes). Each
definition mirrors the Rust function of the same name.
-/

namespace RustZip

/-! ## Rust path-name semantics (`Path::extension`, `Path::file_stem`)

`splitLastDot s` splits a file name at its last `'.'`, returning the parts
before and after it; `none` when the name has no dot. Rust's
`Path::extension` returns the part after the last dot unless that dot is
the leading character (`.gitignore` has no extension); `Path::file_stem`
returns the part before the last dot, or the whole name when there is no
dot or only a leading dot. -/

def splitLastDot : List Char → Option (List Char × List Char)
  | [] => none
  | c :: cs =>
    match splitLastDot cs with
    | some (b, a) => some (c :: b, a)
    | none => if c = '.' then some ([], cs) else none

def rustExtension (name : List Char) : Option (List Char) :=
  match splitLastDot name with
  | some (b, a) => if b = [] then none else some a
  | none => none

def rustFileStem (name : List Char) : Option (List Char) :=
  match splitLastDot name with
  | some (b, _) => if b = [] then some name else some b
  | none => if name = [] then none else some name

/-! ## Codec selector (`src/utils.rs::get_compression_method`) -/

inductive CompressionMethod where
  | Zstd
  | Bzip2
  | Deflated
deriving DecidableEq

/-- Mirrors `get_compression_method` in `src/utils.rs`: maps an algorithm
name and an i64 level to a compression method and a validated level;
out-of-range levels fall back to an algorithm-specific default; unknown
algorithm names give an error. -/
def get_compression_method (algorithm : String) (level : Int) :
    Except String (CompressionMethod × Option Int) :=
  if algorithm = "Zstd" then
    .ok (.Zstd, if -7 ≤ level ∧ level ≤ 22 then some level else some 3)
  else if algorithm = "Bzip2" then
    .ok (.Bzip2, if 0 ≤ level ∧ level ≤ 9 then some level else some 6)
  else if algorithm = "Deflated" then
    .ok (.Deflated, if 0 ≤ level ∧ level ≤ 9 then some level else some 6)
  else
    .error "Unsupported compression algorithm, supported algorithms are: Zstd, Bzip2, Deflated"

/-! ## Pack-side format classifier (`src/compression.rs`) -/

inductive FileType where
  | Image
  | Video
  | Audio
  | Text
  | Other
deriving DecidableEq

/-- Mirrors `get_file_type` in `src/compression.rs`: classifies a file
extension into a `FileType`. -/
def get_file_type (extension : List Char) : FileType :=
  if extension = "png".data ∨ extension = "jpg".data ∨
     extension = "gif".data ∨ extension = "jpeg".data then .Image
  else if extension = "mp4".data ∨ extension = "avi".data ∨
          extension = "mov".data then .Video
  else if extension = "mp3".data ∨ extension = "wav".data then .Audio
  else if extension = "txt".data then .Text
  else .Other

/-- Mirrors `file_type_matches` in `src/compression.rs`: the guard that
decides whether a path (given by its Rust extension) is processed by
`add_files_to_zip` for a requested `FileType`. -/
def file_type_matches (ext : Option (List Char)) (file_type : FileType) : Bool :=
  match file_type with
  | .Image => match ext with
    | some e => e = "png".data || e = "jpg".data
    | none => false
  | .Video => match ext with
    | some e => e = "mp4".data || e = "avi".data
    | none => false
  | .Audio => match ext with
    | some e => e = "mp3".data || e = "wav".data
    | none => false
  | .Text => match ext with
    | some e => e = "txt".data
    | none => false
  | .Other => true

/-- The per-entry guard of `add_files_to_zip` in `src/compression.rs`
(line 52): an entry is handed to conversion and archiving exactly when it
is a file and `file_type_matches` holds; otherwise it is skipped. -/
def addFilesEntryProcessed (isFile : Bool) (ext : Option (List Char))
    (ft : FileType) : Bool :=
  isFile && file_type_matches ext ft

/-! ## Envelope extension recovery
(`src/image_processing.rs::determine_image_format`,
 `src/text_to_binary.rs::determine_text_format`)

Both functions start from `binary_path.extension()`; if it is `"bin"` they
take `file_stem()` and re-split it at its last `'.'` (`stem.rfind('.')`,
which, unlike `Path::extension`, accepts a dot at position 0). The shared
first stage is `stripBinExt`. -/

def stripBinExt (binary_path : List Char) : Option (List Char) :=
  if rustExtension binary_path = some "bin".data then
    match rustFileStem binary_path with
    | some stem =>
      match splitLastDot stem with
      | some (_, a) => some a
      | none => rustExtension binary_path
    | none => rustExtension binary_path
  else rustExtension binary_path

inductive ImageFormat where
  | Png
  | Jpeg
  | Gif
  | WebP
  | Tiff
  | Bmp
  | Ico
deriving DecidableEq

/-- The `match extension` of `determine_image_format`
(`src/image_processing.rs`), applied to the recovered extension. -/
def imageFormatOfExt (ext : Option (List Char)) : Except String ImageFormat :=
  if ext = some "png".data ∨ ext = some "Png".data then .ok .Png
  else if ext = some "jpg".data ∨ ext = some "jpeg".data ∨
          ext = some "Jpg".data ∨ ext = some "Jpeg".data then .ok .Jpeg
  else if ext = some "gif".data ∨ ext = some "Gif".data then .ok .Gif
  else if ext = some "webp".data ∨ ext = some "Webp".data then .ok .WebP
  else if ext = some "tiff".data ∨ ext = some "tif".data ∨
          ext = some "Tiff".data ∨ ext = some "Tif".data then .ok .Tiff
  else if ext = some "bmp".data ∨ ext = some "Bmp".data then .ok .Bmp
  else if ext = some "ico".data ∨ ext = some "Ico".data then .ok .Ico
  else .error "Unsupported or unknown image format"

/-- Mirrors `determine_image_format` in `src/image_processing.rs`. -/
def determine_image_format (binary_path : List Char) :
    Except String ImageFormat :=
  imageFormatOfExt (stripBinExt binary_path)

/-- The `match extension` of `determine_text_format`
(`src/text_to_binary.rs`), applied to the recovered extension. -/
def textFormatOfExt (ext : Option (List Char)) : Except String (List Char) :=
  if ext = some "json".data ∨ ext = some "Json".data then .ok "json".data
  else if ext = some "txt".data ∨ ext = some "Txt".data then .ok "txt".data
  else .error "Unsupported or unknown text format"

/-- Mirrors `determine_text_format` in `src/text_to_binary.rs`. -/
def determine_text_format (binary_path : List Char) :
    Except String (List Char) :=
  textFormatOfExt (stripBinExt binary_path)

/-! ## UTF-8 lossy decoding

Models Rust std's `String::from_utf8_lossy`, which the spec treats as an
external black box ("a UTF-8 decoder is assumed as a black box"). The
decoder is total: every byte list decodes, invalid sequences become the
replacement character U+FFFD. Written with a fuel argument (one unit per
consumed lead byte, so `bytes.length` fuel always suffices) to keep the
definition structurally recursive and kernel-evaluable. -/

def replacementChar : Char := Char.ofNat 0xFFFD

def isCont (b : Nat) : Bool := 0x80 ≤ b && b < 0xC0

def utf8LossyFuel : Nat → List Nat → List Char
  | 0, _ => []
  | _ + 1, [] => []
  | fuel + 1, b :: rest =>
    if b < 0x80 then Char.ofNat b :: utf8LossyFuel fuel rest
    else if 0xC2 ≤ b ∧ b ≤ 0xDF then
      match rest with
      | c :: rest2 =>
        if isCont c then
          Char.ofNat ((b - 0xC0) * 0x40 + (c - 0x80)) :: utf8LossyFuel fuel rest2
        else replacementChar :: utf8LossyFuel fuel rest
      | [] => [replacementChar]
    else if 0xE0 ≤ b ∧ b ≤ 0xEF then
      match rest with
      | c :: d :: rest3 =>
        if isCont c ∧ isCont d ∧ (b = 0xE0 → 0xA0 ≤ c) ∧ (b = 0xED → c < 0xA0) then
          Char.ofNat ((b - 0xE0) * 0x1000 + (c - 0x80) * 0x40 + (d - 0x80)) ::
            utf8LossyFuel fuel rest3
        else replacementChar :: utf8LossyFuel fuel rest
      | _ => replacementChar :: utf8LossyFuel fuel rest
    else if 0xF0 ≤ b ∧ b ≤ 0xF4 then
      match rest with
      | c :: d :: e :: rest4 =>
        if isCont c ∧ isCont d ∧ isCont e ∧ (b = 0xF0 → 0x90 ≤ c) ∧ (b = 0xF4 → c < 0x90) then
          Char.ofNat ((b - 0xF0) * 0x40000 + (c - 0x80) * 0x1000 +
              (d - 0x80) * 0x40 + (e - 0x80)) :: utf8LossyFuel fuel rest4
        else replacementChar :: utf8LossyFuel fuel rest
      | _ => replacementChar :: utf8LossyFuel fuel rest
    else replacementChar :: utf8LossyFuel fuel rest

def utf8Lossy (bytes : List Nat) : List Char :=
  utf8LossyFuel bytes.length bytes

/-! ## Text reconstruction (`src/text_to_binary.rs::convert_binary_to_text`) -/

/-- Mirrors `convert_binary_to_text` in `src/text_to_binary.rs`: decodes
the file's bytes with lossy UTF-8 (`String::from_utf8_lossy`), recovers
the original text format from the file name, strips a trailing occurrence
of that format from the file stem (`truncate`), and returns the output
file name together with the text written there. -/
def textExtensionOf (format : List Char) : List Char :=
  if format = "json".data then "json".data
  else if format = "txt".data then "txt".data
  else "txt".data

/-- The output-name computation of `convert_binary_to_text`: take the file
stem, truncate a trailing occurrence of the extension (`ends_with` /
`truncate`), then append `"." + extension`. -/
def convertedTextName (format stem : List Char) : List Char :=
  (if (textExtensionOf format).isSuffixOf stem
   then stem.take (stem.length - (textExtensionOf format).length)
   else stem) ++ '.' :: textExtensionOf format

def convert_binary_to_text (binary_path : List Char) (bytes : List Nat) :
    Except String (List Char × List Char) :=
  match determine_text_format binary_path with
  | .error e => .error e
  | .ok format =>
    match rustFileStem binary_path with
    | none => .error "panic: no file stem"
    | some stem => .ok (convertedTextName format stem, utf8Lossy bytes)

/-! ## Archive restorer (`src/decompression.rs::decompress_and_convert_to_files`) -/

/-- Outcome flags for one archive entry, abstracting the fallible I/O
steps the code performs on it, in the order the code performs them. -/
structure EntryInput where
  accessOk : Bool
  name : Option (List Char)
  readOk : Bool
  writeOk : Bool
  convertOk : Bool
deriving DecidableEq

inductive EntryStatus where
  | accessError
  | invalidName
  | readError
  | writeError
  | binNoop
  | convertError
  | converted
  | unsupported
deriving DecidableEq

/-- Per-entry control flow of `decompress_and_convert_to_files`
(`src/decompression.rs` lines 58-104): each early failure is reported and
ends only this entry's processing; a written file is dispatched on its
extension, where the `"bin"` arm of the `match` is empty (no conversion)
and `txt`/`json` go through `convert_and_cleanup_json_file`. -/
def processEntry (e : EntryInput) : EntryStatus :=
  if e.accessOk = false then .accessError
  else match e.name with
    | none => .invalidName
    | some n =>
      if e.readOk = false then .readError
      else if e.writeOk = false then .writeError
      else
        let ext := (rustExtension n).getD []
        if ext = "bin".data then .binNoop
        else if ext = "txt".data ∨ ext = "json".data then
          if e.convertOk then .converted else .convertError
        else .unsupported

/-- Fallible-step outcomes for one whole restore run. -/
structure RestoreEnv where
  createDirOk : Bool
  openOk : Bool
  archiveOk : Bool
  entries : List EntryInput
  cleanupOk : Bool
deriving DecidableEq

/-- Mirrors the top-level control flow of
`decompress_and_convert_to_files`: `create_dir_all`, `File::open` and
`ZipArchive::new` abort with `?`; an empty archive returns `Ok` early;
otherwise every entry is processed independently, the tasks are joined,
and the trailing `delete_remaining_bin_files(output_folder).await?` also
aborts on error. Returns the per-entry statuses and the overall result. -/
def decompress_and_convert_to_files (env : RestoreEnv) :
    List EntryStatus × Except Unit Unit :=
  if env.createDirOk = false then ([], .error ())
  else if env.openOk = false then ([], .error ())
  else if env.archiveOk = false then ([], .error ())
  else if env.entries.length = 0 then ([], .ok ())
  else
    (env.entries.map processEntry,
     if env.cleanupOk then .ok () else .error ())

/-! ## Deletion retry with exponential backoff
(`src/decompression.rs::convert_and_cleanup_json_file`) -/

inductive ErrorKind where
  | NotFound
  | PermissionDenied
  | Other
deriving DecidableEq

structure IoError where
  kind : ErrorKind
  rawOsError : Option Int
deriving DecidableEq

/-- The error class the retry loop matches:
`e.kind() == io::ErrorKind::Other && e.raw_os_error() == Some(1224)`. -/
def isTransientLock (e : IoError) : Bool :=
  e.kind = ErrorKind.Other && e.rawOsError = some (1224 : Int)

def transientLockError : IoError := ⟨.Other, some 1224⟩

inductive DeleteOutcome where
  | ok
  | err (e : IoError)

/-- Observable result of the deletion loop: whether the file was removed,
the backoff sleeps performed (in ms), and how many `remove_file` calls
were made. -/
structure RetryResult where
  success : Bool
  sleeps : List Nat
  calls : Nat
deriving DecidableEq

/-- One iteration of the `while attempts < max_attempts` loop of
`convert_and_cleanup_json_file`: `oracle attempts` is the outcome of the
`remove_file` call of that iteration. `Ok` returns; a transient-lock error
sleeps `delay`, increments `attempts` and doubles `delay`; any other error
sets `attempts = max_attempts`, leaving the loop to the final `Err`. -/
def removeFileRetryAux (oracle : Nat → DeleteOutcome) :
    Nat → Nat → Nat → RetryResult
  | _, _, 0 => ⟨false, [], 0⟩
  | attempts, delay, r + 1 =>
    match oracle attempts with
    | .ok => ⟨true, [], 1⟩
    | .err e =>
      if isTransientLock e then
        let rest := removeFileRetryAux oracle (attempts + 1) (delay * 2) r
        ⟨rest.success, delay :: rest.sleeps, rest.calls + 1⟩
      else ⟨false, [], 1⟩

/-- The deletion loop as entered by `convert_and_cleanup_json_file`:
`attempts = 0`, `delay = 100`, `max_attempts = 5`. -/
def convertCleanupDelete (oracle : Nat → DeleteOutcome) : RetryResult :=
  removeFileRetryAux oracle 0 100 5

/-! ## Pack-side conversion (`src/compression.rs::convert_to_target_format`)
and the single-file round trip. -/

/-- Mirrors `image_to_binary_file` (`src/image_processing.rs`): the
envelope gets the file's name plus `".bin"`; its bytes are the file's
bytes, verbatim. Returns the envelope name (content is unchanged). -/
def image_to_binary_file (name : List Char) : List Char :=
  name ++ ".bin".data

/-- Mirrors `text_to_binary_file` (`src/text_to_binary.rs`): identical
envelope construction. -/
def text_to_binary_file (name : List Char) : List Char :=
  name ++ ".bin".data

/-- Mirrors `convert_to_target_format` (`src/compression.rs`): images and
texts are wrapped in a binary envelope, everything else is copied as is.
Returns the name of the file that gets archived; its content equals the
input content in every branch. -/
def convert_to_target_format (name : List Char) : List Char :=
  match get_file_type ((rustExtension name).getD []) with
  | .Image => image_to_binary_file name
  | .Text => text_to_binary_file name
  | _ => name

inductive FileContent where
  | raw (bytes : List Nat)
  | text (chars : List Char)
deriving DecidableEq

/-- Files present in the output folder after the per-entry unit of work of
`decompress_and_convert_to_files` finishes, on an idealized filesystem
where every write and delete succeeds: the entry is written verbatim; a
`txt`/`json` entry is then converted (the converted text is written to the
output name) and the original is deleted by `convert_and_cleanup_json_file`
— the deletion runs even when conversion failed; a `.bin` entry is left
exactly as written because the `"bin"` match arm is empty. -/
def restoreEntryFiles (name : List Char) (bytes : List Nat) :
    List (List Char × FileContent) :=
  let ext := (rustExtension name).getD []
  if ext = "bin".data then [(name, .raw bytes)]
  else if ext = "txt".data ∨ ext = "json".data then
    match convert_binary_to_text name bytes with
    | .ok (out, txt) => if out = name then [] else [(out, .text txt)]
    | .error _ => []
  else [(name, .raw bytes)]

/-- Single-file round trip: pack `name` with conversion enabled
(`add_files_to_zip` archives the converted file under its file name; zip
entry compression is lossless and modelled as the identity on bytes), then
restore that entry with `decompress_and_convert_to_files`. -/
def roundTripSingle (name : List Char) (bytes : List Nat) :
    List (List Char × FileContent) :=
  restoreEntryFiles (convert_to_target_format name) bytes

/-! ## Helper lemmas -/

theorem splitLastDot_eq_none {l : List Char} (h : '.' ∉ l) :
    splitLastDot l = none := by
  induction l with
  | nil => rfl
  | cons c cs ih =>
    simp only [List.mem_cons, not_or] at h
    rw [splitLastDot, ih h.2, if_neg (Ne.symm h.1)]

theorem splitLastDot_append (xs : List Char) {ys : List Char}
    (h : '.' ∉ ys) : splitLastDot (xs ++ '.' :: ys) = some (xs, ys) := by
  induction xs with
  | nil => simp [splitLastDot, splitLastDot_eq_none h]
  | cons c cs ih => simp [splitLastDot, ih]

/-- Recovery of the original extension from an envelope name of the form
`<stem>.<e>.bin`, as both `determine_image_format` and
`determine_text_format` perform it: `Path::extension` gives `"bin"`,
`Path::file_stem` gives `<stem>.<e>`, and `rfind('.')` splits off `e`. -/
theorem stripBinExt_envelope (stem : List Char) {e : List Char}
    (h : '.' ∉ e) :
    stripBinExt (stem ++ '.' :: (e ++ '.' :: "bin".data)) = some e := by
  have hbin : ('.' : Char) ∉ "bin".data := by decide
  have h1 := splitLastDot_append (stem ++ '.' :: e) hbin
  simp only [List.append_assoc, List.cons_append] at h1
  have h2 := splitLastDot_append stem h
  simp only [stripBinExt, rustExtension, rustFileStem]
  rw [h1]
  simp [h2]

theorem rustExtension_some_stem {p a : List Char}
    (h : rustExtension p = some a) : ∃ b, rustFileStem p = some b := by
  unfold rustExtension at h
  unfold rustFileStem
  cases hs : splitLastDot p with
  | none => rw [hs] at h; exact Option.noConfusion h
  | some ba =>
    obtain ⟨b, a'⟩ := ba
    rw [hs] at h
    dsimp only at h ⊢
    by_cases hb : b = []
    · rw [if_pos hb] at h; exact Option.noConfusion h
    · rw [if_neg hb]; exact ⟨b, rfl⟩

theorem stripBinExt_some_stem {p x : List Char}
    (h : stripBinExt p = some x) : ∃ b, rustFileStem p = some b := by
  by_cases hb : rustExtension p = some "bin".data
  · exact rustExtension_some_stem hb
  · unfold stripBinExt at h
    rw [if_neg hb] at h
    exact rustExtension_some_stem h

theorem textFormatOfExt_cases {ext : Option (List Char)} {fmt : List Char}
    (h : textFormatOfExt ext = .ok fmt) :
    fmt = "json".data ∨ fmt = "txt".data := by
  unfold textFormatOfExt at h
  split_ifs at h
  · exact Or.inl (Except.ok.inj h).symm
  · exact Or.inr (Except.ok.inj h).symm

theorem determine_text_format_cases {p fmt : List Char}
    (h : determine_text_format p = .ok fmt) :
    (fmt = "json".data ∨ fmt = "txt".data) ∧ ∃ b, rustFileStem p = some b := by
  unfold determine_text_format at h
  refine ⟨textFormatOfExt_cases h, ?_⟩
  cases hs : stripBinExt p with
  | none => rw [hs] at h; cases h
  | some x => exact stripBinExt_some_stem hs

/-! ## Claim theorems -/

/-- C2: `get_compression_method` succeeds for the three known algorithm
names, returning the requested level when it is in the algorithm's valid
range (`-7..22` for Zstd, `0..9` for Bzip2 and Deflated) and the default
(`3` for Zstd, `6` for the other two) otherwise; it fails for every other
algorithm name; in particular `("Zstd", 99) ↦ 3`, `("Bzip2", -1) ↦ 6`,
and `("Bogus", 3)` fails. -/
theorem claim_c2_codec_selector (level : Int) :
    get_compression_method "Zstd" level =
      .ok (.Zstd, some (if -7 ≤ level ∧ level ≤ 22 then level else 3))
    ∧ get_compression_method "Bzip2" level =
      .ok (.Bzip2, some (if 0 ≤ level ∧ level ≤ 9 then level else 6))
    ∧ get_compression_method "Deflated" level =
      .ok (.Deflated, some (if 0 ≤ level ∧ level ≤ 9 then level else 6))
    ∧ (∀ alg : String, alg ≠ "Zstd" → alg ≠ "Bzip2" → alg ≠ "Deflated" →
        (get_compression_method alg level).toOption = none)
    ∧ get_compression_method "Zstd" 99 = .ok (.Zstd, some 3)
    ∧ get_compression_method "Bzip2" (-1) = .ok (.Bzip2, some 6)
    ∧ (get_compression_method "Bogus" 3).toOption = none := by
  refine ⟨?_, ?_, ?_, ?_, rfl, rfl, rfl⟩
  · unfold get_compression_method
    rw [if_pos rfl]
    split_ifs <;> rfl
  · unfold get_compression_method
    rw [if_neg (by decide), if_pos rfl]
    split_ifs <;> rfl
  · unfold get_compression_method
    rw [if_neg (by decide), if_neg (by decide), if_pos rfl]
    split_ifs <;> rfl
  · intro alg h1 h2 h3
    unfold get_compression_method
    rw [if_neg h1, if_neg h2, if_neg h3]
    rfl

theorem claim_c2_codec_selector_witness :
    get_compression_method "Zstd" 99 = .ok (.Zstd, some 3)
    ∧ (get_compression_method "Bogus" 99).toOption = none :=
  ⟨(claim_c2_codec_selector 99).2.2.2.2.1,
   (claim_c2_codec_selector 99).2.2.2.1 "Bogus"
     (by decide) (by decide) (by decide)⟩

/-- C9: whenever `get_compression_method` returns `Ok`, the validated
level is `Some l` (never `None`) with `l` inside the algorithm's valid
range: `-7..22` for Zstd, `0..9` for Bzip2 and Deflated. -/
theorem claim_c9_valid_level_range (alg : String) (level : Int)
    (m : CompressionMethod) (vl : Option Int)
    (h : get_compression_method alg level = .ok (m, vl)) :
    ∃ l : Int, vl = some l ∧
      (match m with
       | .Zstd => -7 ≤ l ∧ l ≤ 22
       | .Bzip2 => 0 ≤ l ∧ l ≤ 9
       | .Deflated => 0 ≤ l ∧ l ≤ 9) := by
  unfold get_compression_method at h
  split_ifs at h with h1 h2 h3 h4 h5 h6
  all_goals first
  | exact Except.noConfusion h
  | (obtain ⟨hm, hv⟩ := Prod.mk.injEq .. ▸ Except.ok.inj h
     subst hm
     subst hv
     exact ⟨level, rfl, by constructor <;> omega⟩)
  | (obtain ⟨hm, hv⟩ := Prod.mk.injEq .. ▸ Except.ok.inj h
     subst hm
     subst hv
     exact ⟨_, rfl, by constructor <;> omega⟩)

theorem claim_c9_valid_level_range_witness :
    ∃ l : Int, (some 3 : Option Int) = some l ∧ (-7 ≤ l ∧ l ≤ 22) :=
  claim_c9_valid_level_range "Zstd" 99 .Zstd (some 3) rfl

/-- C3 counterexample: the claim says `get_file_type` returns `Image`
exactly for `{png, jpg}` (anything else outside the listed sets giving
`Other`), but the code also maps `"gif"` to `Image`. -/
theorem claim_c3_counterexample :
    get_file_type "gif".data = .Image
    ∧ ¬("gif".data = "png".data ∨ "gif".data = "jpg".data)
    ∧ get_file_type "gif".data ≠ .Other := by
  refine ⟨rfl, by decide, by decide⟩

/-- C3 (amended): `get_file_type` returns `Image` exactly for
`{png, jpg, gif, jpeg}`, `Video` exactly for `{mp4, avi, mov}`, `Audio`
exactly for `{mp3, wav}`, `Text` exactly for `{txt}`, and `Other` for
every other extension; being a total function it never fails. -/
theorem claim_c3_classifier_amended (e : List Char) :
    (get_file_type e = .Image ↔
      e = "png".data ∨ e = "jpg".data ∨ e = "gif".data ∨ e = "jpeg".data)
    ∧ (get_file_type e = .Video ↔
      e = "mp4".data ∨ e = "avi".data ∨ e = "mov".data)
    ∧ (get_file_type e = .Audio ↔ e = "mp3".data ∨ e = "wav".data)
    ∧ (get_file_type e = .Text ↔ e = "txt".data)
    ∧ (get_file_type e = .Other ↔
      ¬(e = "png".data ∨ e = "jpg".data ∨ e = "gif".data ∨ e = "jpeg".data ∨
        e = "mp4".data ∨ e = "avi".data ∨ e = "mov".data ∨
        e = "mp3".data ∨ e = "wav".data ∨ e = "txt".data)) := by
  unfold get_file_type
  split_ifs with h1 h2 h3 h4
  · rcases h1 with rfl | rfl | rfl | rfl <;> decide
  · rcases h2 with rfl | rfl | rfl <;> decide
  · rcases h3 with rfl | rfl <;> decide
  · subst h4; decide
  · simp_all

/-- C10: the pack-path guard `file_type_matches(_, Image)` holds exactly
when the path's extension is literally `"png"` or `"jpg"`; it is strictly
narrower than `get_file_type`, which also maps `"jpeg"` and `"gif"` to
`Image`; hence `add_files_to_zip` invoked with `FileType::Image` skips
every `.jpeg` and `.gif` file (its per-entry guard is false, so the file
is neither converted nor archived). -/
theorem claim_c10_image_guard_narrower (ext : Option (List Char)) :
    (file_type_matches ext .Image = true ↔
      ext = some "png".data ∨ ext = some "jpg".data)
    ∧ (∀ e : List Char,
        file_type_matches (some e) .Image = true → get_file_type e = .Image)
    ∧ get_file_type "jpeg".data = .Image
    ∧ get_file_type "gif".data = .Image
    ∧ file_type_matches (some "jpeg".data) .Image = false
    ∧ file_type_matches (some "gif".data) .Image = false
    ∧ (∀ isFile : Bool,
        addFilesEntryProcessed isFile (some "jpeg".data) .Image = false
        ∧ addFilesEntryProcessed isFile (some "gif".data) .Image = false) := by
  refine ⟨?_, ?_, rfl, rfl, rfl, rfl, ?_⟩
  · cases ext with
    | none => simp [file_type_matches]
    | some e => simp [file_type_matches]
  · intro e he
    have : e = "png".data ∨ e = "jpg".data := by
      simpa [file_type_matches] using he
    rcases this with h | h <;> subst h <;> rfl
  · intro isFile
    cases isFile <;> exact ⟨rfl, rfl⟩

theorem claim_c10_image_guard_narrower_witness :
    get_file_type "png".data = FileType.Image
    ∧ addFilesEntryProcessed true (some "jpeg".data) .Image = false :=
  ⟨(claim_c10_image_guard_narrower none).2.1 "png".data (by decide),
   ((claim_c10_image_guard_narrower none).2.2.2.2.2.2 true).1⟩

/-- C4: for an envelope name of the form `<stem>.<orig-ext>.bin`, both
recovery functions strip the trailing `.bin` and re-split the remaining
stem at its last dot, recovering `<orig-ext>`; in particular any
`<stem>.png.bin` recovers `ImageFormat::Png` and any `<stem>.txt.bin`
recovers `"txt"`, so `"photo.png.bin"` yields `Png` and
`"report.txt.bin"` yields `"txt"`. -/
theorem claim_c4_envelope_recovery (stem e : List Char) (h : '.' ∉ e) :
    stripBinExt (stem ++ '.' :: (e ++ '.' :: "bin".data)) = some e
    ∧ determine_image_format (stem ++ '.' :: ("png".data ++ '.' :: "bin".data))
      = .ok .Png
    ∧ determine_text_format (stem ++ '.' :: ("txt".data ++ '.' :: "bin".data))
      = .ok "txt".data
    ∧ determine_image_format "photo.png.bin".data = .ok .Png
    ∧ determine_text_format "report.txt.bin".data = .ok "txt".data := by
  refine ⟨stripBinExt_envelope stem h, ?_, ?_, rfl, rfl⟩
  · unfold determine_image_format
    rw [stripBinExt_envelope stem (e := "png".data) (by decide)]
    rfl
  · unfold determine_text_format
    rw [stripBinExt_envelope stem (e := "txt".data) (by decide)]
    rfl

theorem claim_c4_envelope_recovery_witness :
    stripBinExt ("photo".data ++ '.' :: ("png".data ++ '.' :: "bin".data))
      = some "png".data
    ∧ determine_image_format
        ("photo".data ++ '.' :: ("png".data ++ '.' :: "bin".data)) = .ok .Png
    ∧ determine_text_format
        ("photo".data ++ '.' :: ("txt".data ++ '.' :: "bin".data))
      = .ok "txt".data
    ∧ determine_image_format "photo.png.bin".data = .ok .Png
    ∧ determine_text_format "report.txt.bin".data = .ok "txt".data :=
  claim_c4_envelope_recovery "photo".data "png".data (by decide)

/-- C7: for every byte buffer handed to `convert_binary_to_text` on a
name whose text format is recoverable (txt/json envelope or raw txt/json
file), the bytes are decoded by the total lossy UTF-8 decoder — the
decode step never fails, invalid sequences become replacement characters
(e.g. `[0xFF]` decodes to `[U+FFFD]`) — and the decoded text is written
to a file name ending in `"." ++ fmt` for the recovered format `fmt`
(txt or json). -/
theorem claim_c7_lossy_text_reconstruction (p : List Char) (bytes : List Nat)
    (fmt : List Char) (h : determine_text_format p = .ok fmt) :
    (fmt = "json".data ∨ fmt = "txt".data)
    ∧ (∃ stem', convert_binary_to_text p bytes
        = .ok (stem' ++ '.' :: fmt, utf8Lossy bytes))
    ∧ utf8Lossy [0xFF] = [replacementChar]
    ∧ utf8Lossy [0x68, 0x69] = "hi".data := by
  obtain ⟨hfmt, b, hb⟩ := determine_text_format_cases h
  refine ⟨hfmt, ?_, by decide, by decide⟩
  have hext : textExtensionOf fmt = fmt := by
    rcases hfmt with h1 | h1 <;> rw [h1] <;> rfl
  refine ⟨if (textExtensionOf fmt).isSuffixOf b
          then b.take (b.length - (textExtensionOf fmt).length) else b, ?_⟩
  unfold convert_binary_to_text
  rw [h, hb]
  dsimp only
  unfold convertedTextName
  rw [hext]

theorem claim_c7_lossy_text_reconstruction_witness :
    (("txt".data : List Char) = "json".data ∨ ("txt".data : List Char) = "txt".data)
    ∧ (∃ stem', convert_binary_to_text "report.txt.bin".data [0xFF]
        = .ok (stem' ++ '.' :: "txt".data, utf8Lossy [0xFF]))
    ∧ utf8Lossy [0xFF] = [replacementChar]
    ∧ utf8Lossy [0x68, 0x69] = "hi".data :=
  claim_c7_lossy_text_reconstruction "report.txt.bin".data [0xFF]
    "txt".data rfl

/-- C5: the deletion loop of `convert_and_cleanup_json_file` retries only
on the transient-lock error class (`ErrorKind::Other` with OS error 1224);
when every call fails that way it makes exactly 5 `remove_file` calls with
sleeps 100, 200, 400, 800, 1600 ms and then reports failure; a
non-transient error at any point stops the loop without a further retry or
sleep after that call; and conversion/cleanup failures never make
`decompress_and_convert_to_files` itself return an error. -/
theorem claim_c5_deletion_retry_backoff (oracle : Nat → DeleteOutcome) :
    ((∀ i, i < 5 → oracle i = .err transientLockError) →
      convertCleanupDelete oracle = ⟨false, [100, 200, 400, 800, 1600], 5⟩)
    ∧ (∀ j, j < 5 → ∀ e : IoError, isTransientLock e = false →
        oracle j = .err e → (∀ i, i < j → oracle i = .err transientLockError) →
        convertCleanupDelete oracle =
          ⟨false, (List.range j).map (fun i => 100 * 2 ^ i), j + 1⟩)
    ∧ (∀ j, j < 5 → oracle j = .ok →
        (∀ i, i < j → oracle i = .err transientLockError) →
        convertCleanupDelete oracle =
          ⟨true, (List.range j).map (fun i => 100 * 2 ^ i), j + 1⟩)
    ∧ (∀ env : RestoreEnv, env.createDirOk = true → env.openOk = true →
        env.archiveOk = true → env.cleanupOk = true →
        (decompress_and_convert_to_files env).2 = .ok ()) := by
  refine ⟨?_, ?_, ?_, ?_⟩
  · intro h
    simp [convertCleanupDelete, removeFileRetryAux,
      h 0 (by omega), h 1 (by omega), h 2 (by omega), h 3 (by omega),
      h 4 (by omega), isTransientLock, transientLockError]
  · intro j hj e he hoj hprev
    have ht : isTransientLock transientLockError = true := rfl
    interval_cases j <;>
      simp_all [convertCleanupDelete, removeFileRetryAux, List.range_succ]
  · intro j hj hoj hprev
    have ht : isTransientLock transientLockError = true := rfl
    interval_cases j <;>
      simp_all [convertCleanupDelete, removeFileRetryAux, List.range_succ]
  · intro env h1 h2 h3 h4
    obtain ⟨c, o, a, es, cl⟩ := env
    cases h1; cases h2; cases h3; cases h4
    cases es <;> simp [decompress_and_convert_to_files]

theorem claim_c5_deletion_retry_backoff_witness :
    convertCleanupDelete (fun _ => .err transientLockError)
      = ⟨false, [100, 200, 400, 800, 1600], 5⟩
    ∧ convertCleanupDelete (fun _ => .err ⟨.NotFound, none⟩)
      = ⟨false, [], 1⟩
    ∧ convertCleanupDelete (fun _ => .ok) = ⟨true, [], 1⟩
    ∧ (decompress_and_convert_to_files
        ⟨true, true, true, [⟨true, some "a.txt".data, true, true, false⟩],
          true⟩).2 = .ok () := by
  refine ⟨(claim_c5_deletion_retry_backoff _).1 (fun i _ => rfl),
    (claim_c5_deletion_retry_backoff _).2.1 0 (by omega) ⟨.NotFound, none⟩
      (by decide) rfl (fun i hi => absurd hi (by omega)),
    (claim_c5_deletion_retry_backoff _).2.2.1 0 (by omega) rfl
      (fun i hi => absurd hi (by omega)),
    (claim_c5_deletion_retry_backoff (fun _ => .ok)).2.2.2
      ⟨true, true, true, [⟨true, some "a.txt".data, true, true, false⟩],
        true⟩ rfl rfl rfl rfl⟩

/-- C6 counterexample: the claim says `decompress_and_convert_to_files`
returns an error only when opening the archive or creating the output
directory fails, but the trailing
`delete_remaining_bin_files(output_folder).await?` also propagates: in a
run where the directory is created and the archive opens (and its one
entry is processed to completion) a failing cleanup sweep still makes the
function return an error. -/
theorem claim_c6_counterexample :
    (decompress_and_convert_to_files
      ⟨true, true, true, [⟨true, some "notes.txt".data, true, true, true⟩],
        false⟩).2 = .error ()
    ∧ (decompress_and_convert_to_files
      ⟨true, true, true, [⟨true, some "notes.txt".data, true, true, true⟩],
        false⟩).1 = [.converted] :=
  ⟨rfl, rfl⟩

/-- C6 (amended): in `decompress_and_convert_to_files`, an error reading,
writing or converting one entry stops only that entry's processing while
every other entry is still processed (the status list is a pointwise map
over the entries); the function returns an error exactly when opening the
archive or creating the output directory fails, or when the trailing
cleanup sweep of remaining `.bin` files fails after a non-empty archive
has been fully processed. -/
theorem claim_c6_per_entry_isolation (env : RestoreEnv) :
    (env.createDirOk = true → env.openOk = true → env.archiveOk = true →
      (decompress_and_convert_to_files env).1 = env.entries.map processEntry)
    ∧ ((decompress_and_convert_to_files env).2 = .error () ↔
        env.createDirOk = false ∨ env.openOk = false ∨ env.archiveOk = false ∨
        (env.entries ≠ [] ∧ env.cleanupOk = false)) := by
  obtain ⟨c, o, a, es, cl⟩ := env
  constructor
  · intro h1 h2 h3
    cases h1; cases h2; cases h3
    cases es <;> simp [decompress_and_convert_to_files]
  · cases c <;> cases o <;> cases a <;> cases cl <;> cases es <;>
      simp [decompress_and_convert_to_files]

theorem claim_c6_per_entry_isolation_witness :
    (decompress_and_convert_to_files
      ⟨true, true, true,
        [⟨true, some "a.txt".data, true, true, false⟩,
         ⟨true, some "b.png.bin".data, true, true, true⟩,
         ⟨true, some "c.txt".data, false, true, true⟩], true⟩).1
      = [.convertError, .binNoop, .readError] :=
  (claim_c6_per_entry_isolation _).1 rfl rfl rfl

/-- C1: the round trip fails in the code — packing `photo.png` (content
`[1,2,3]`) with conversion produces the archive entry `photo.png.bin`,
and restoring it with `decompress_and_convert_to_files` leaves exactly
that `.bin` envelope with the raw bytes: the `"bin"` arm of the
extension dispatch is empty, so no file with the original `png`
extension (and no converted image at all) is ever produced, contrary to
the function's own documentation that `.bin` files are converted back to
their original types. -/
theorem claim_c1_roundtrip_fails :
    convert_to_target_format "photo.png".data = "photo.png.bin".data
    ∧ roundTripSingle "photo.png".data [1, 2, 3]
      = [("photo.png.bin".data, .raw [1, 2, 3])]
    ∧ (∀ f ∈ roundTripSingle "photo.png".data [1, 2, 3],
        rustExtension f.1 ≠ some "png".data) := by
  refine ⟨rfl, rfl, by decide⟩

end RustZip
